import Mathlib

/-!
# Verification of the terminalTanks game core (src/main.go)

Shallow embedding of the Go program: the terrain generator
(`generateTerrain`), the projectile simulator (`simulate`), the
key/tick/reset dispatcher (`update`) and the reset transition
(`resetGame`), together with proofs about the frozen claims.

Go `float64` values are idealised as real numbers.  Go's `int(x)`
float-to-int conversion (truncation toward zero) is `goTrunc`, and Go's
`math.Round` (round half away from zero) is `goRound`.  Go's
`rand.Intn n` draws are modelled by an arbitrary draw `d : Nat` used as
`d % n`, and the stream of draws feeding the base terrain sequence by a
function `g : Nat -> Nat`.  List indexing `terrain[i]` is the total
function `idx` (out-of-range reads, which panic in Go, return 0; every
branch of the program that the claims exercise indexes in bounds, and
the theorems carry the in-bounds side conditions explicitly).
-/

namespace TTanks

open scoped Classical

/-- Go `math.Round x`: round half away from zero, as an integer. -/
noncomputable def goRound (x : ℝ) : ℤ :=
  if 0 ≤ x then ⌊x + 1/2⌋ else -⌊-x + 1/2⌋

/-- Go `int(x)` conversion of a float: truncation toward zero. -/
noncomputable def goTrunc (x : ℝ) : ℤ :=
  if 0 ≤ x then ⌊x⌋ else -⌊-x⌋

/-- `terrain[i]` as a total function (0 for out-of-range reads). -/
def idx (l : List ℤ) (i : ℤ) : ℤ := l.getD i.toNat 0

/-- `var gravity = 9.81` -/
noncomputable def gravity : ℝ := 9.81

/-- `cosineInterpolation(a, b, mu)` from src/main.go. -/
noncomputable def cosineInterpolation (a b mu : ℝ) : ℝ :=
  let mu2 := (1 - Real.cos (mu * Real.pi)) / 2
  a * (1 - mu2) + b * mu2

/-- The loop `for i := 0; i < len(naiveTerrain); i += sample` collecting
`naiveTerrain[i]` into `samplePoints` (for a stride `sample ≥ 1` it
visits `⌈len/sample⌉` indices). -/
def samplePointsOf (base : List ℝ) (sample : ℕ) : List ℝ :=
  (List.range ((base.length + sample - 1) / sample)).map fun k =>
    base.getD (k * sample) 0

/-- One octave of `generateTerrain`: for each sample point append the
weighted control value followed by `sample - 1` weighted
cosine-interpolated values toward the (cyclically) next control point. -/
noncomputable def octaveTerrain (sp : List ℝ) (weight : ℝ) (sample : ℕ) : List ℝ :=
  ((List.range sp.length).map fun i =>
    weight * sp.getD i 0 ::
      (List.range (sample - 1)).map fun j =>
        weight * cosineInterpolation (sp.getD i 0) (sp.getD ((i + 1) % sp.length) 0)
          (((j + 1 : ℕ) : ℝ) / (sample : ℝ))).flatten

/-- The `for z := iterations; z > 0; z--` loop of `generateTerrain`,
listed in loop order (`k = iterations - z`), with
`weight = 1 / 2^(z-1)` and `sample = 1 << (iterations - z)`. -/
noncomputable def octaveList (base : List ℝ) (iterations : ℕ) : List (List ℝ) :=
  (List.range iterations).map fun k =>
    octaveTerrain (samplePointsOf base (2 ^ k)) ((1 : ℝ) / 2 ^ (iterations - 1 - k)) (2 ^ k)

/-- `weightSum`, the sum of all octave weights. -/
noncomputable def weightSum (iterations : ℕ) : ℝ :=
  ((List.range iterations).map fun k => (1 : ℝ) / 2 ^ (iterations - 1 - k)).sum

/-- `generateTerrain` from a given base ("naive") sequence: blend the
octaves (each index sums the octaves defined there, normalised by the
weight sum) and round each height to an integer. -/
noncomputable def generateTerrainFrom (base : List ℝ) (iterations : ℕ) : List ℤ :=
  (List.range base.length).map fun i =>
    goRound ((((octaveList base iterations).map fun t =>
      if i < t.length then t.getD i 0 else 0).sum) / weightSum iterations)

/-- The base ("naive") random sequence: `width` draws of
`rand.Intn(10) + 5`, one draw `g i` per index. -/
def baseSeq (width : ℕ) (g : ℕ → ℕ) : List ℝ :=
  (List.range width).map fun i => ((g i % 10 + 5 : ℕ) : ℝ)

/-- `generateTerrain(width, iterations)` with random source `g`. -/
noncomputable def generateTerrain (width iterations : ℕ) (g : ℕ → ℕ) : List ℤ :=
  generateTerrainFrom (baseSeq width g) iterations

/-- The `model` struct of src/main.go. -/
structure Model where
  terrain : List ℤ
  tankPos : ℤ
  targetPos : ℤ
  ballPosX : ℤ
  ballPosY : ℤ
  angle : ℝ
  power : ℝ
  simulating : Bool
  hit : Bool
  timePassed : ℝ

/-- The `tea.Cmd` values the program returns: `nil`, `tick()`,
`reset()` and `tea.Quit`. -/
inductive Cmd where
  | none
  | tick
  | reset
  | quit
deriving DecidableEq

/-- The messages `Update` handles: key presses, `tickMsg`, and
`resetMsg` (the latter carrying the random draws `resetGame` consumes). -/
inductive Msg where
  | key (s : String)
  | tick
  | reset (g : ℕ → ℕ) (d1 d2 d3 d4 : ℕ)

/-- The time value after `m.timePassed += 0.1` on a tick. -/
noncomputable def simT (m : Model) : ℝ := m.timePassed + 0.1

/-- `newXPos = xPos + m.power*math.Cos(angleRad)*m.timePassed`,
with `xPos = float64(m.tankPos)` (re-launched from the tank column). -/
noncomputable def simNewX (m : Model) : ℝ :=
  (m.tankPos : ℝ) + m.power * Real.cos (m.angle * Real.pi / 180) * simT m

/-- `newYPos = yPos + m.power*math.Sin(angleRad)*t - 0.5*gravity*t*t`,
with `yPos = float64(m.terrain[m.tankPos])`. -/
noncomputable def simNewY (m : Model) : ℝ :=
  ((idx m.terrain m.tankPos : ℤ) : ℝ) +
    m.power * Real.sin (m.angle * Real.pi / 180) * simT m -
    0.5 * gravity * simT m * simT m

/-- The first guard of `simulate`:
`int(newXPos) >= len(m.terrain) || int(newXPos) < 0 || newYPos <= float64(m.terrain[int(newXPos)])`. -/
noncomputable def missCond (m : Model) : Prop :=
  (m.terrain.length : ℤ) ≤ goTrunc (simNewX m) ∨ goTrunc (simNewX m) < 0 ∨
    simNewY m ≤ ((idx m.terrain (goTrunc (simNewX m)) : ℤ) : ℝ)

/-- The target-hit guard of `simulate`:
`int(math.Abs(float64(m.targetPos-m.ballPosX))) <= 3 && m.ballPosY >= m.terrain[m.targetPos]-2 && m.ballPosY <= m.terrain[m.targetPos]+2`,
with `m.ballPosX = int(math.Round(newXPos))` and
`m.ballPosY = int(math.Round(newYPos))` just assigned. -/
noncomputable def hitCond (m : Model) : Prop :=
  (m.targetPos - goRound (simNewX m)).natAbs ≤ 3 ∧
    idx m.terrain m.targetPos - 2 ≤ goRound (simNewY m) ∧
    goRound (simNewY m) ≤ idx m.terrain m.targetPos + 2

/-- `func (m model) simulate() (tea.Model, tea.Cmd)`. -/
noncomputable def simulate (m : Model) : Model × Cmd :=
  if m.simulating = false then (m, Cmd.none)
  else if missCond m then
    ({ m with timePassed := simT m, simulating := false }, Cmd.reset)
  else if hitCond m then
    ({ m with
        timePassed := simT m
        ballPosX := goRound (simNewX m)
        ballPosY := goRound (simNewY m)
        hit := true
        simulating := false }, Cmd.none)
  else
    ({ m with
        timePassed := simT m
        ballPosX := goRound (simNewX m)
        ballPosY := goRound (simNewY m) }, Cmd.tick)

/-- `func (m model) resetGame() model`, with the fresh random draws
passed explicitly (`d % 5` models `rand.Intn(5)`).  Note `ballPosY`
reads the PRE-reset terrain `m.terrain`, and `timePassed` is the Go
zero value 0. -/
noncomputable def resetGame (m : Model) (g : ℕ → ℕ) (d1 d2 d3 d4 : ℕ) : Model :=
  { terrain := generateTerrain 100 6 g
    tankPos := ((d1 % 5 + 1 : ℕ) : ℤ)
    targetPos := ((d2 % 5 + 75 : ℕ) : ℤ)
    ballPosX := ((d3 % 5 + 1 : ℕ) : ℤ)
    ballPosY := idx m.terrain ((d4 % 5 + 1 : ℕ) : ℤ)
    angle := 45
    power := 20
    simulating := false
    hit := false
    timePassed := 0 }

/-- `func (m model) Update(msg tea.Msg) (tea.Model, tea.Cmd)`. -/
noncomputable def update (m : Model) (msg : Msg) : Model × Cmd :=
  match msg with
  | Msg.key s =>
    if s = "q" then (m, Cmd.quit)
    else if m.simulating = false then
      match s with
      | "a" => ({ m with angle := m.angle - 5 }, Cmd.none)
      | "d" => ({ m with angle := m.angle + 5 }, Cmd.none)
      | "w" => ({ m with power := m.power + 1 }, Cmd.none)
      | "s" => ({ m with power := m.power - 1 }, Cmd.none)
      | "enter" => ({ m with simulating := true, timePassed := 0 }, Cmd.tick)
      | _ => (m, Cmd.none)
    else (m, Cmd.none)
  | Msg.tick => simulate m
  | Msg.reset g d1 d2 d3 d4 => (resetGame m g d1 d2 d3 d4, Cmd.none)

/-- The `initialModel` built in `main()`, with the random draws for the
terrain (`g`), the tank column (`d1`) and the target column (`d2`). -/
noncomputable def initialModel (g : ℕ → ℕ) (d1 d2 : ℕ) : Model :=
  { terrain := generateTerrain 100 6 g
    tankPos := ((d1 % 5 + 1 : ℕ) : ℤ)
    targetPos := ((d2 % 5 + 75 : ℕ) : ℤ)
    ballPosX := ((d1 % 5 + 1 : ℕ) : ℤ)
    ballPosY := idx (generateTerrain 100 6 g) ((d1 % 5 + 1 : ℕ) : ℤ)
    angle := 45
    power := 20
    simulating := false
    hit := false
    timePassed := 0 }

/-- Game states reachable from an initial state by any sequence of key
commands, tick events and reset events. -/
inductive Reachable : Model → Prop where
  | init (g : ℕ → ℕ) (d1 d2 : ℕ) : Reachable (initialModel g d1 d2)
  | step (m : Model) (msg : Msg) : Reachable m → Reachable (update m msg).1

/-- Reachability restricted to traces that never accept a fire command
(`enter`) while `hit` is already true. -/
inductive ReachableNoFireAfterHit : Model → Prop where
  | init (g : ℕ → ℕ) (d1 d2 : ℕ) : ReachableNoFireAfterHit (initialModel g d1 d2)
  | step (m : Model) (msg : Msg) (h : msg = Msg.key "enter" → m.hit = false) :
      ReachableNoFireAfterHit m → ReachableNoFireAfterHit (update m msg).1

/-! ## Branch lemmas for `simulate` and `update` -/

theorem simulate_not_simulating (m : Model) (h : m.simulating = false) :
    simulate m = (m, Cmd.none) := by
  unfold simulate
  rw [if_pos h]

theorem simulate_miss (m : Model) (h : m.simulating = true) (hm : missCond m) :
    simulate m = ({ m with timePassed := simT m, simulating := false }, Cmd.reset) := by
  unfold simulate
  rw [h]
  rw [if_neg (by simp), if_pos hm]

theorem simulate_hit (m : Model) (h : m.simulating = true) (hm : ¬ missCond m)
    (hh : hitCond m) :
    simulate m = ({ m with
        timePassed := simT m
        ballPosX := goRound (simNewX m)
        ballPosY := goRound (simNewY m)
        hit := true
        simulating := false }, Cmd.none) := by
  unfold simulate
  rw [h]
  rw [if_neg (by simp), if_neg hm, if_pos hh]

theorem simulate_cont (m : Model) (h : m.simulating = true) (hm : ¬ missCond m)
    (hh : ¬ hitCond m) :
    simulate m = ({ m with
        timePassed := simT m
        ballPosX := goRound (simNewX m)
        ballPosY := goRound (simNewY m) }, Cmd.tick) := by
  unfold simulate
  rw [h]
  rw [if_neg (by simp), if_neg hm, if_neg hh]

theorem update_key_simulating (m : Model) (s : String) (h : m.simulating = true)
    (hq : s ≠ "q") : update m (Msg.key s) = (m, Cmd.none) := by
  simp only [update]
  rw [if_neg hq, h]
  rw [if_neg (by simp)]

theorem update_key_q (m : Model) : update m (Msg.key "q") = (m, Cmd.quit) := by
  simp [update]

theorem update_key_w (m : Model) (h : m.simulating = false) :
    update m (Msg.key "w") = ({ m with power := m.power + 1 }, Cmd.none) := by
  simp only [update]
  rw [if_neg (by decide), if_pos h]

theorem update_key_a (m : Model) (h : m.simulating = false) :
    update m (Msg.key "a") = ({ m with angle := m.angle - 5 }, Cmd.none) := by
  simp only [update]
  rw [if_neg (by decide), if_pos h]

theorem update_key_enter (m : Model) (h : m.simulating = false) :
    update m (Msg.key "enter") =
      ({ m with simulating := true, timePassed := 0 }, Cmd.tick) := by
  simp only [update]
  rw [if_neg (by decide), if_pos h]

/-! ## Helper lemmas on rounding, truncation and indexing -/

theorem goRound_of_nonneg {x : ℝ} (h : 0 ≤ x) : goRound x = ⌊x + 1/2⌋ := by
  unfold goRound
  rw [if_pos h]

theorem goTrunc_of_nonneg {x : ℝ} (h : 0 ≤ x) : goTrunc x = ⌊x⌋ := by
  unfold goTrunc
  rw [if_pos h]

theorem goTrunc_nonneg {x : ℝ} (h : 0 ≤ x) : 0 ≤ goTrunc x := by
  rw [goTrunc_of_nonneg h]
  exact Int.le_floor.mpr (by exact_mod_cast h)

theorem goTrunc_lt {x : ℝ} {k : ℤ} (h : 0 ≤ x) (hk : x < (k : ℝ)) : goTrunc x < k := by
  rw [goTrunc_of_nonneg h]
  exact Int.floor_lt.mpr hk

theorem goRound_eq {x : ℝ} {k : ℤ} (h : 0 ≤ x) (h1 : (k : ℝ) - 1/2 ≤ x)
    (h2 : x < (k : ℝ) + 1/2) : goRound x = k := by
  rw [goRound_of_nonneg h]
  rw [Int.floor_eq_iff]
  constructor
  · linarith
  · linarith

theorem goRound_le {x : ℝ} {k : ℤ} (h : 0 ≤ x) (h2 : x < (k : ℝ) + 1/2) :
    goRound x ≤ k := by
  rw [goRound_of_nonneg h]
  have : ⌊x + 1/2⌋ < k + 1 := Int.floor_lt.mpr (by push_cast; linarith)
  omega

theorem le_goRound {x : ℝ} {k : ℤ} (h : 0 ≤ x) (h1 : (k : ℝ) - 1/2 ≤ x) :
    k ≤ goRound x := by
  rw [goRound_of_nonneg h]
  exact Int.le_floor.mpr (by linarith)

theorem idx_replicate {n : ℕ} {c : ℤ} {i : ℤ} (h0 : 0 ≤ i) (hn : i < (n : ℤ)) :
    idx (List.replicate n c) i = c := by
  unfold idx
  have ht : i.toNat < n := by omega
  simp [List.getD, List.getElem?_replicate, ht]

/-! ## C7: fire resets elapsed time, each tick adds exactly 0.1 -/

theorem tick_time_step (m : Model) (h : m.simulating = true) :
    (simulate m).1.timePassed = m.timePassed + 0.1 := by
  by_cases hm : missCond m
  · rw [simulate_miss m h hm]
    rfl
  · by_cases hh : hitCond m
    · rw [simulate_hit m h hm hh]
      rfl
    · rw [simulate_cont m h hm hh]
      rfl

/-- C7: accepting the fire command (`enter`) in a non-simulating state
starts a run with elapsed time 0, and every tick processed while
simulating sets the elapsed time to exactly the old time plus the fixed
step 0.1 — in particular the elapsed time strictly increases on every
tick of the run, including the one that produces the terminal outcome. -/
theorem fire_zeroes_time_and_ticks_step_by_tenth (m mrun : Model)
    (h : m.simulating = false) (hrun : mrun.simulating = true) :
    (update m (Msg.key "enter")).1.timePassed = 0 ∧
    (update m (Msg.key "enter")).1.simulating = true ∧
    (simulate mrun).1.timePassed = mrun.timePassed + 0.1 ∧
    mrun.timePassed < (simulate mrun).1.timePassed := by
  refine ⟨?_, ?_, tick_time_step mrun hrun, ?_⟩
  · rw [update_key_enter m h]
  · rw [update_key_enter m h]
  · rw [tick_time_step mrun hrun]
    norm_num

/-- A concrete aiming state (used to instantiate hypotheses). -/
def mAim : Model :=
  { terrain := [5], tankPos := 0, targetPos := 0, ballPosX := 0, ballPosY := 5
    angle := 45, power := 20, simulating := false, hit := false, timePassed := 0 }

/-- A concrete simulating state (used to instantiate hypotheses). -/
def mFly : Model :=
  { terrain := [5], tankPos := 0, targetPos := 0, ballPosX := 0, ballPosY := 5
    angle := 45, power := 20, simulating := true, hit := false, timePassed := 0 }

theorem fire_zeroes_time_and_ticks_step_by_tenth_witness :
    (update mAim (Msg.key "enter")).1.timePassed = 0 ∧
    (update mAim (Msg.key "enter")).1.simulating = true ∧
    (simulate mFly).1.timePassed = mFly.timePassed + 0.1 ∧
    mFly.timePassed < (simulate mFly).1.timePassed :=
  fire_zeroes_time_and_ticks_step_by_tenth mAim mFly rfl rfl

/-! ## C8: Aim (angle, power) is immutable while simulating -/

/-- C8: while `simulating` is true, processing any key command other
than `q` (quit) leaves both the angle and the power unchanged (the
whole model is returned unchanged). -/
theorem aim_immutable_while_simulating (m : Model) (s : String)
    (h : m.simulating = true) (hq : s ≠ "q") :
    (update m (Msg.key s)).1.angle = m.angle ∧
    (update m (Msg.key s)).1.power = m.power := by
  rw [update_key_simulating m s h hq]
  exact ⟨rfl, rfl⟩

theorem aim_immutable_while_simulating_witness :
    (update mFly (Msg.key "a")).1.angle = mFly.angle ∧
    (update mFly (Msg.key "a")).1.power = mFly.power :=
  aim_immutable_while_simulating mFly "a" rfl (by decide)

/-! ## C2: out-of-bounds handling on a tick -/

/-- C2 (amended): on a tick of a simulating state the simulator
computes `x(t) = launchX + power*cos(angleRad)*t`, and if `x(t)`
TRUNCATED TOWARD ZERO (Go `int` conversion) falls outside
`[0, width)` the shot is a miss: simulating becomes false and a reset
is scheduled.  (Rounding `x(t)` out of `[0, width)` does not by itself
cause a miss; see the counterexample.) -/
theorem trunc_out_of_bounds_is_miss (m : Model) (h : m.simulating = true)
    (hx : (m.terrain.length : ℤ) ≤ goTrunc (simNewX m) ∨ goTrunc (simNewX m) < 0) :
    simNewX m =
      (m.tankPos : ℝ) + m.power * Real.cos (m.angle * Real.pi / 180) * (m.timePassed + 0.1) ∧
    (simulate m).1.simulating = false ∧ (simulate m).2 = Cmd.reset := by
  have hm : missCond m := by
    rcases hx with h1 | h2
    · exact Or.inl h1
    · exact Or.inr (Or.inl h2)
  rw [simulate_miss m h hm]
  exact ⟨rfl, rfl, rfl⟩

/-- A simulating state whose tick truncates x(t) past the right edge. -/
def mOob : Model :=
  { terrain := [5], tankPos := 0, targetPos := 0, ballPosX := 0, ballPosY := 5
    angle := 0, power := 20, simulating := true, hit := false, timePassed := 0 }

theorem mOob_newX : simNewX mOob = 2 := by
  simp only [simNewX, simT, mOob]
  rw [show (0 : ℝ) * Real.pi / 180 = 0 by ring, Real.cos_zero]
  norm_num

theorem trunc_out_of_bounds_is_miss_witness :
    simNewX mOob =
      (mOob.tankPos : ℝ) + mOob.power * Real.cos (mOob.angle * Real.pi / 180) *
        (mOob.timePassed + 0.1) ∧
    (simulate mOob).1.simulating = false ∧ (simulate mOob).2 = Cmd.reset := by
  refine trunc_out_of_bounds_is_miss mOob rfl (Or.inl ?_)
  rw [mOob_newX]
  rw [show ((mOob.terrain.length : ℤ) : ℤ) = 1 by rfl]
  rw [goTrunc_of_nonneg (by norm_num)]
  exact Int.le_floor.mpr (by norm_num)

/-- The state refuting the claim as written: width 100, launch column 1
at height 5, flat ground elsewhere, fired horizontally (angle 0) with
power 986 so that after the first tick `x(0.1) = 99.6`, which rounds to
100 (outside `[0, 100)`) but truncates to 99 (inside). -/
def mC2 : Model :=
  { terrain := 0 :: 5 :: List.replicate 98 0
    tankPos := 1, targetPos := 50, ballPosX := 1, ballPosY := 5
    angle := 0, power := 986, simulating := true, hit := false, timePassed := 0 }

theorem mC2_newX : simNewX mC2 = 99.6 := by
  simp only [simNewX, simT, mC2]
  rw [show (0 : ℝ) * Real.pi / 180 = 0 by ring, Real.cos_zero]
  norm_num

theorem mC2_newY : simNewY mC2 = 4.95095 := by
  simp only [simNewY, simT, gravity, mC2]
  rw [show (0 : ℝ) * Real.pi / 180 = 0 by ring, Real.sin_zero]
  rw [show idx (0 :: 5 :: List.replicate 98 0) 1 = 5 by decide]
  norm_num

theorem mC2_len : (mC2.terrain.length : ℤ) = 100 := by
  simp [mC2]

theorem mC2_trunc : goTrunc (simNewX mC2) = 99 := by
  rw [mC2_newX, goTrunc_of_nonneg (by norm_num)]
  exact Int.floor_eq_iff.mpr (by norm_num)

theorem mC2_round : goRound (simNewX mC2) = 100 := by
  rw [mC2_newX]
  exact goRound_eq (by norm_num) (by norm_num) (by norm_num)

/-- C2 counterexample: in the state `mC2`, `x(t)` rounds to column 100,
outside `[0, width) = [0, 100)`, yet the tick is NOT classified as a
miss — the projectile keeps flying (`simulating` stays true and the
next tick is scheduled), because the code bounds-checks `int(newXPos)`
(truncation), not the rounded column. -/
theorem round_out_of_bounds_not_miss_cex :
    mC2.simulating = true ∧
    (mC2.terrain.length : ℤ) ≤ goRound (simNewX mC2) ∧
    (simulate mC2).1.simulating = true ∧ (simulate mC2).2 = Cmd.tick := by
  have hmiss : ¬ missCond mC2 := by
    unfold missCond
    rw [mC2_trunc, mC2_len, mC2_newY]
    rw [show idx mC2.terrain 99 = 0 by decide]
    push_neg
    refine ⟨by norm_num, by norm_num, by norm_num⟩
  have hhit : ¬ hitCond mC2 := by
    unfold hitCond
    rw [mC2_round]
    rintro ⟨habs, -, -⟩
    rw [show mC2.targetPos = 50 by rfl] at habs
    omega
  rw [mC2_len, mC2_round]
  rw [simulate_cont mC2 rfl hmiss hhit]
  exact ⟨rfl, by norm_num, rfl, rfl⟩

/-! ## C3: ground collision takes precedence over the target hit band -/

/-- C3: on a tick of a simulating state whose computed position passes
the horizontal bounds check but is at/below the terrain height at the
projectile's (truncated) column, the outcome is a miss — simulating
stops, `hit` is left unchanged, and a reset is scheduled — even when
the rounded position simultaneously lies within the target's hit band
(within 3 columns of the target and within ±2 of the terrain height at
the target column): the ground check is evaluated first. -/
theorem ground_collision_beats_hit_band (m : Model) (h : m.simulating = true)
    (h0 : 0 ≤ goTrunc (simNewX m))
    (h1 : goTrunc (simNewX m) < (m.terrain.length : ℤ))
    (hg : simNewY m ≤ ((idx m.terrain (goTrunc (simNewX m)) : ℤ) : ℝ))
    (hband : hitCond m) :
    (simulate m).1.simulating = false ∧ (simulate m).1.hit = m.hit ∧
    (simulate m).2 = Cmd.reset := by
  have hm : missCond m := Or.inr (Or.inr hg)
  rw [simulate_miss m h hm]
  exact ⟨rfl, rfl, rfl⟩

/-- Flat terrain of height 5; firing flat from column 0 puts the tick-1
position at column 2, height 4.95095: at/below ground and inside the
target band of the target at column 2. -/
def mC3 : Model :=
  { terrain := List.replicate 10 5
    tankPos := 0, targetPos := 2, ballPosX := 0, ballPosY := 5
    angle := 0, power := 20, simulating := true, hit := false, timePassed := 0 }

theorem mC3_newX : simNewX mC3 = 2 := by
  simp only [simNewX, simT, mC3]
  rw [show (0 : ℝ) * Real.pi / 180 = 0 by ring, Real.cos_zero]
  norm_num

theorem mC3_newY : simNewY mC3 = 4.95095 := by
  simp only [simNewY, simT, gravity, mC3]
  rw [show (0 : ℝ) * Real.pi / 180 = 0 by ring, Real.sin_zero]
  rw [show idx (List.replicate 10 5) 0 = 5 by decide]
  norm_num

theorem mC3_trunc : goTrunc (simNewX mC3) = 2 := by
  rw [mC3_newX, goTrunc_of_nonneg (by norm_num)]
  exact Int.floor_eq_iff.mpr (by norm_num)

theorem ground_collision_beats_hit_band_witness :
    (simulate mC3).1.simulating = false ∧ (simulate mC3).1.hit = mC3.hit ∧
    (simulate mC3).2 = Cmd.reset := by
  refine ground_collision_beats_hit_band mC3 rfl ?_ ?_ ?_ ?_
  · rw [mC3_trunc]
    norm_num
  · rw [mC3_trunc]
    simp [mC3]
  · rw [mC3_trunc, mC3_newY, show idx mC3.terrain 2 = 5 by decide]
    norm_num
  · refine ⟨?_, ?_, ?_⟩
    · rw [show goRound (simNewX mC3) = 2 by
        rw [mC3_newX]; exact goRound_eq (by norm_num) (by norm_num) (by norm_num)]
      rw [show mC3.targetPos = 2 by rfl]
      decide
    · rw [show goRound (simNewY mC3) = 5 by
        rw [mC3_newY]; exact goRound_eq (by norm_num) (by norm_num) (by norm_num)]
      rw [show idx mC3.terrain mC3.targetPos = 5 by decide]
      decide
    · rw [show goRound (simNewY mC3) = 5 by
        rw [mC3_newY]; exact goRound_eq (by norm_num) (by norm_num) (by norm_num)]
      rw [show idx mC3.terrain mC3.targetPos = 5 by decide]
      decide

/-! ## C4: the target hit band -/

/-- C4: on a tick of a simulating state that clears the bounds check
and the ground check, the hit branch is taken (command `nil`, i.e. no
further tick and no reset) precisely when `|targetPos - round(x(t))| ≤ 3`
and `round(y(t))` is within ±2 of `terrain[targetPos]`; when it is
taken the hit flag is set and simulating stops, and in particular a
rounded height of exactly `terrain[targetPos] + 2` at the target column
is a hit while a rounded height of `terrain[targetPos] + 3` is not (the
flight continues with the hit flag unchanged). -/
theorem hit_band_characterisation (m : Model) (h : m.simulating = true)
    (h0 : 0 ≤ goTrunc (simNewX m))
    (h1 : goTrunc (simNewX m) < (m.terrain.length : ℤ))
    (hg : ((idx m.terrain (goTrunc (simNewX m)) : ℤ) : ℝ) < simNewY m) :
    ((simulate m).2 = Cmd.none ↔
      (m.targetPos - goRound (simNewX m)).natAbs ≤ 3 ∧
      idx m.terrain m.targetPos - 2 ≤ goRound (simNewY m) ∧
      goRound (simNewY m) ≤ idx m.terrain m.targetPos + 2) ∧
    (hitCond m → (simulate m).1.hit = true ∧ (simulate m).1.simulating = false) ∧
    (¬ hitCond m → (simulate m).2 = Cmd.tick ∧ (simulate m).1.hit = m.hit ∧
      (simulate m).1.simulating = true) ∧
    (goRound (simNewX m) = m.targetPos ∧
        goRound (simNewY m) = idx m.terrain m.targetPos + 2 →
      (simulate m).1.hit = true ∧ (simulate m).1.simulating = false) ∧
    (goRound (simNewY m) = idx m.terrain m.targetPos + 3 →
      (simulate m).2 = Cmd.tick ∧ (simulate m).1.hit = m.hit) := by
  have hm : ¬ missCond m := by
    rintro (ha | hb | hc)
    · omega
    · omega
    · exact absurd hc (not_le.mpr hg)
  have main : ∀ hc : hitCond m,
      (simulate m).2 = Cmd.none ∧ (simulate m).1.hit = true ∧
      (simulate m).1.simulating = false := by
    intro hc
    rw [simulate_hit m h hm hc]
    exact ⟨rfl, rfl, rfl⟩
  have alt : ∀ hc : ¬ hitCond m,
      (simulate m).2 = Cmd.tick ∧ (simulate m).1.hit = m.hit ∧
      (simulate m).1.simulating = true := by
    intro hc
    rw [simulate_cont m h hm hc]
    exact ⟨rfl, rfl, h⟩
  refine ⟨?_, fun hc => ⟨(main hc).2.1, (main hc).2.2⟩,
    fun hc => alt hc, ?_, ?_⟩
  · constructor
    · intro hcmd
      by_cases hc : hitCond m
      · exact hc
      · rw [(alt hc).1] at hcmd
        cases hcmd
    · intro hc
      exact (main hc).1
  · rintro ⟨hx, hy⟩
    have hc : hitCond m := by
      refine ⟨?_, ?_, ?_⟩
      · rw [hx]
        simp
      · omega
      · omega
    exact ⟨(main hc).2.1, (main hc).2.2⟩
  · intro hy
    have hc : ¬ hitCond m := by
      rintro ⟨-, -, hup⟩
      omega
    exact ⟨(alt hc).1, (alt hc).2.1⟩

/-- Launch column 0 at height 5 over flat ground of height 0: tick 1
clears bounds and ground (position column 2, height 4.95095 above
terrain height 0). -/
def mC4 : Model :=
  { terrain := 5 :: List.replicate 9 0
    tankPos := 0, targetPos := 2, ballPosX := 0, ballPosY := 5
    angle := 0, power := 20, simulating := true, hit := false, timePassed := 0 }

theorem mC4_newX : simNewX mC4 = 2 := by
  simp only [simNewX, simT, mC4]
  rw [show (0 : ℝ) * Real.pi / 180 = 0 by ring, Real.cos_zero]
  norm_num

theorem mC4_newY : simNewY mC4 = 4.95095 := by
  simp only [simNewY, simT, gravity, mC4]
  rw [show (0 : ℝ) * Real.pi / 180 = 0 by ring, Real.sin_zero]
  rw [show idx (5 :: List.replicate 9 0) 0 = 5 by decide]
  norm_num

theorem mC4_trunc : goTrunc (simNewX mC4) = 2 := by
  rw [mC4_newX, goTrunc_of_nonneg (by norm_num)]
  exact Int.floor_eq_iff.mpr (by norm_num)

theorem hit_band_characterisation_witness :
    ((simulate mC4).2 = Cmd.none ↔
      (mC4.targetPos - goRound (simNewX mC4)).natAbs ≤ 3 ∧
      idx mC4.terrain mC4.targetPos - 2 ≤ goRound (simNewY mC4) ∧
      goRound (simNewY mC4) ≤ idx mC4.terrain mC4.targetPos + 2) ∧
    (hitCond mC4 → (simulate mC4).1.hit = true ∧ (simulate mC4).1.simulating = false) ∧
    (¬ hitCond mC4 → (simulate mC4).2 = Cmd.tick ∧ (simulate mC4).1.hit = mC4.hit ∧
      (simulate mC4).1.simulating = true) ∧
    (goRound (simNewX mC4) = mC4.targetPos ∧
        goRound (simNewY mC4) = idx mC4.terrain mC4.targetPos + 2 →
      (simulate mC4).1.hit = true ∧ (simulate mC4).1.simulating = false) ∧
    (goRound (simNewY mC4) = idx mC4.terrain mC4.targetPos + 3 →
      (simulate mC4).2 = Cmd.tick ∧ (simulate mC4).1.hit = mC4.hit) := by
  refine hit_band_characterisation mC4 rfl ?_ ?_ ?_
  · rw [mC4_trunc]
    norm_num
  · rw [mC4_trunc]
    simp [mC4]
  · rw [mC4_trunc, mC4_newY, show idx mC4.terrain 2 = 0 by decide]
    norm_num

/-! ## Terrain generator lemmas -/

theorem goRound_nonneg {x : ℝ} (h : 0 ≤ x) : 0 ≤ goRound x := by
  rw [goRound_of_nonneg h]
  exact Int.le_floor.mpr (by push_cast; linarith)

theorem getD_replicate_of_lt {n i : ℕ} {c : ℝ} (h : i < n) :
    (List.replicate n c).getD i 0 = c := by
  rw [List.getD_eq_getElem _ _ (by simpa using h)]
  simp

theorem getD_zero_nonneg {l : List ℝ} (h : ∀ x ∈ l, 0 ≤ x) (i : ℕ) :
    0 ≤ l.getD i 0 := by
  by_cases hi : i < l.length
  · rw [List.getD_eq_getElem _ _ hi]
    exact h _ (List.getElem_mem hi)
  · rw [List.getD_eq_default _ _ (le_of_not_lt hi)]

theorem map_range_getD (l : List ℝ) :
    (List.range l.length).map (fun k => l.getD k 0) = l := by
  apply List.ext_getElem
  · simp
  · intro n h1 h2
    simp only [List.getElem_map, List.getElem_range]
    exact List.getD_eq_getElem l 0 h2

theorem ceil_div_mul_ge (n s : ℕ) (hs : 0 < s) : n ≤ ((n + s - 1) / s) * s := by
  rcases Nat.eq_zero_or_pos n with h0 | h0
  · simp [h0]
  have key : (n - 1) / s < (n + s - 1) / s := by
    have h : n + s - 1 = (n - 1) + s := by omega
    rw [h, Nat.add_div_right _ hs]
    omega
  have h2 := (Nat.div_lt_iff_lt_mul hs).mp key
  omega

theorem lt_of_lt_ceil_div (k n s : ℕ) (hs : 0 < s) (hk : k < (n + s - 1) / s) :
    k * s < n := by
  have h1 : (k + 1) * s ≤ ((n + s - 1) / s) * s := Nat.mul_le_mul_right s hk
  have h2 : ((n + s - 1) / s) * s ≤ n + s - 1 := Nat.div_mul_le_self _ s
  have h3 : (k + 1) * s = k * s + s := by ring
  omega

theorem flatten_map_singleton {α β : Type} (l : List α) (f : α → β) :
    (l.map fun a => [f a]).flatten = l.map f := by
  induction l with
  | nil => simp
  | cons a t ih => simp [ih]

theorem cosineInterpolation_self (c mu : ℝ) : cosineInterpolation c c mu = c := by
  simp only [cosineInterpolation]
  ring

theorem cosineInterpolation_nonneg (a b mu : ℝ) (ha : 0 ≤ a) (hb : 0 ≤ b) :
    0 ≤ cosineInterpolation a b mu := by
  simp only [cosineInterpolation]
  have h1 := Real.cos_le_one (mu * Real.pi)
  have h2 := Real.neg_one_le_cos (mu * Real.pi)
  nlinarith [mul_nonneg ha (by linarith : (0:ℝ) ≤ 1 + Real.cos (mu * Real.pi)),
    mul_nonneg hb (by linarith : (0:ℝ) ≤ 1 - Real.cos (mu * Real.pi))]

theorem weightSum_pos (it : ℕ) (h : 1 ≤ it) : 0 < weightSum it := by
  unfold weightSum
  apply List.sum_pos
  · intro x hx
    rw [List.mem_map] at hx
    obtain ⟨k, -, rfl⟩ := hx
    positivity
  · simp only [ne_eq, List.map_eq_nil_iff, List.range_eq_nil]
    omega

theorem samplePointsOf_replicate (n : ℕ) (c : ℝ) (s : ℕ) (hs : 0 < s) :
    samplePointsOf (List.replicate n c) s = List.replicate ((n + s - 1) / s) c := by
  unfold samplePointsOf
  rw [List.length_replicate]
  apply List.eq_replicate_iff.mpr
  refine ⟨by simp, ?_⟩
  intro b hb
  rw [List.mem_map] at hb
  obtain ⟨k, hk, rfl⟩ := hb
  exact getD_replicate_of_lt (lt_of_lt_ceil_div k n s hs (List.mem_range.mp hk))

theorem octaveTerrain_replicate (m : ℕ) (c w : ℝ) (s : ℕ) (hs : 0 < s) :
    octaveTerrain (List.replicate m c) w s = List.replicate (m * s) (w * c) := by
  unfold octaveTerrain
  rw [List.length_replicate]
  apply List.eq_replicate_iff.mpr
  constructor
  · rw [List.length_flatten, List.map_map]
    have hconst : (List.range m).map (List.length ∘ fun i =>
        w * (List.replicate m c).getD i 0 ::
          (List.range (s - 1)).map fun j =>
            w * cosineInterpolation ((List.replicate m c).getD i 0)
              ((List.replicate m c).getD ((i + 1) % m) 0) (((j + 1 : ℕ) : ℝ) / (s : ℝ))) =
        (List.range m).map (fun _ => s) := by
      apply List.map_congr_left
      intro i _
      simp only [Function.comp_apply, List.length_cons, List.length_map, List.length_range]
      omega
    rw [hconst]
    have hrep : (List.range m).map (fun _ => s) = List.replicate m s := by
      apply List.eq_replicate_iff.mpr
      refine ⟨by simp, ?_⟩
      intro b hb
      rw [List.mem_map] at hb
      obtain ⟨-, -, rfl⟩ := hb
      rfl
    rw [hrep]
    simp [List.sum_replicate, smul_eq_mul, Nat.mul_comm]
  · intro b hb
    rw [List.mem_flatten] at hb
    obtain ⟨blk, hblk, hbmem⟩ := hb
    rw [List.mem_map] at hblk
    obtain ⟨i, hi, rfl⟩ := hblk
    have him : i < m := List.mem_range.mp hi
    have hm0 : 0 < m := lt_of_le_of_lt (Nat.zero_le i) him
    rcases List.mem_cons.mp hbmem with hhead | htail
    · rw [hhead, getD_replicate_of_lt him]
    · rw [List.mem_map] at htail
      obtain ⟨j, hj, rfl⟩ := htail
      rw [getD_replicate_of_lt him, getD_replicate_of_lt (Nat.mod_lt _ hm0),
        cosineInterpolation_self]

theorem generateTerrainFrom_replicate (n : ℕ) (c : ℝ) (it : ℕ) (hit : 1 ≤ it) :
    generateTerrainFrom (List.replicate n c) it = List.replicate n (goRound c) := by
  have hoct : octaveList (List.replicate n c) it =
      (List.range it).map (fun k =>
        List.replicate (((n + 2 ^ k - 1) / 2 ^ k) * 2 ^ k)
          ((1 : ℝ) / 2 ^ (it - 1 - k) * c)) := by
    unfold octaveList
    apply List.map_congr_left
    intro k _
    rw [samplePointsOf_replicate n c (2 ^ k) (pow_pos two_pos k),
      octaveTerrain_replicate _ _ _ _ (pow_pos two_pos k)]
  unfold generateTerrainFrom
  rw [hoct, List.length_replicate]
  apply List.eq_replicate_iff.mpr
  refine ⟨by simp, ?_⟩
  intro b hb
  rw [List.mem_map] at hb
  obtain ⟨i, hi, rfl⟩ := hb
  have hilt : i < n := List.mem_range.mp hi
  rw [List.map_map]
  have hterm : (List.range it).map ((fun t => if i < t.length then t.getD i 0 else 0) ∘
      fun k => List.replicate (((n + 2 ^ k - 1) / 2 ^ k) * 2 ^ k)
        ((1 : ℝ) / 2 ^ (it - 1 - k) * c)) =
      (List.range it).map (fun k => (1 : ℝ) / 2 ^ (it - 1 - k) * c) := by
    apply List.map_congr_left
    intro k _
    simp only [Function.comp_apply, List.length_replicate]
    have hlen : i < ((n + 2 ^ k - 1) / 2 ^ k) * 2 ^ k :=
      lt_of_lt_of_le hilt (ceil_div_mul_ge n (2 ^ k) (pow_pos two_pos k))
    rw [if_pos hlen, getD_replicate_of_lt hlen]
  rw [hterm, List.sum_map_mul_right]
  rw [show ((List.range it).map fun k => (1 : ℝ) / 2 ^ (it - 1 - k)).sum = weightSum it
    from rfl]
  rw [mul_comm, mul_div_assoc, div_self (ne_of_gt (weightSum_pos it hit)), mul_one]

/-! ## C5: terrain length and non-negative heights -/

theorem generateTerrainFrom_nonneg (base : List ℝ) (it : ℕ)
    (hb : ∀ x ∈ base, 0 ≤ x) (hit : 1 ≤ it) :
    ∀ h ∈ generateTerrainFrom base it, 0 ≤ h := by
  intro h hh
  unfold generateTerrainFrom at hh
  rw [List.mem_map] at hh
  obtain ⟨i, -, rfl⟩ := hh
  apply goRound_nonneg
  apply div_nonneg
  · apply List.sum_nonneg
    intro x hx
    rw [List.mem_map] at hx
    obtain ⟨t, ht, rfl⟩ := hx
    by_cases hcase : i < t.length
    · rw [if_pos hcase]
      unfold octaveList at ht
      rw [List.mem_map] at ht
      obtain ⟨k, -, rfl⟩ := ht
      apply getD_zero_nonneg
      intro y hy
      unfold octaveTerrain at hy
      rw [List.mem_flatten] at hy
      obtain ⟨blk, hblk, hym⟩ := hy
      rw [List.mem_map] at hblk
      obtain ⟨j, -, rfl⟩ := hblk
      have hsp : ∀ x ∈ samplePointsOf base (2 ^ k), 0 ≤ x := by
        intro x hx
        unfold samplePointsOf at hx
        rw [List.mem_map] at hx
        obtain ⟨j2, -, rfl⟩ := hx
        exact getD_zero_nonneg hb _
      have hw : (0:ℝ) ≤ 1 / 2 ^ (it - 1 - k) := by positivity
      rcases List.mem_cons.mp hym with hhead | htail
      · rw [hhead]
        exact mul_nonneg hw (getD_zero_nonneg hsp _)
      · rw [List.mem_map] at htail
        obtain ⟨j3, -, rfl⟩ := htail
        exact mul_nonneg hw (cosineInterpolation_nonneg _ _ _
          (getD_zero_nonneg hsp _) (getD_zero_nonneg hsp _))
    · rw [if_neg hcase]
  · exact le_of_lt (weightSum_pos it hit)

/-- C5: for every width ≥ 1, octave count ≥ 1 and base random stream,
the generated terrain has length exactly `width` and every height is a
non-negative integer. -/
theorem terrain_length_and_heights_nonneg (width iters : ℕ) (g : ℕ → ℕ)
    (hw : 1 ≤ width) (hi : 1 ≤ iters) :
    (generateTerrain width iters g).length = width ∧
    ∀ h ∈ generateTerrain width iters g, 0 ≤ h := by
  constructor
  · unfold generateTerrain generateTerrainFrom baseSeq
    simp
  · apply generateTerrainFrom_nonneg
    · intro x hx
      unfold baseSeq at hx
      rw [List.mem_map] at hx
      obtain ⟨i, -, rfl⟩ := hx
      positivity
    · exact hi

/-- The all-zero random stream (every `rand.Intn` call returns 0). -/
def randZero : ℕ → ℕ := fun _ => 0

theorem terrain_length_and_heights_nonneg_witness :
    (generateTerrain 1 1 randZero).length = 1 ∧
    ∀ h ∈ generateTerrain 1 1 randZero, 0 ≤ h :=
  terrain_length_and_heights_nonneg 1 1 randZero (by decide) (by decide)

/-! ## C6: a single octave is the rounded base sequence -/

theorem weightSum_one : weightSum 1 = 1 := by
  unfold weightSum
  rw [show List.range 1 = [0] from rfl]
  simp

theorem samplePointsOf_one (base : List ℝ) : samplePointsOf base 1 = base := by
  unfold samplePointsOf
  simp only [Nat.add_sub_cancel, Nat.div_one, mul_one]
  exact map_range_getD base

theorem octaveTerrain_one (base : List ℝ) : octaveTerrain base 1 1 = base := by
  unfold octaveTerrain
  simp only [Nat.sub_self, List.range_zero, List.map_nil]
  rw [flatten_map_singleton (List.range base.length) (fun i => (1 : ℝ) * base.getD i 0)]
  have hone : (List.range base.length).map (fun i => (1 : ℝ) * base.getD i 0) =
      (List.range base.length).map (fun i => base.getD i 0) := by
    apply List.map_congr_left
    intro a _
    rw [one_mul]
  rw [hone, map_range_getD]

theorem octaveList_one (base : List ℝ) : octaveList base 1 = [base] := by
  unfold octaveList
  rw [show List.range 1 = [0] from rfl, List.map_cons, List.map_nil]
  simp [samplePointsOf_one, octaveTerrain_one]

theorem generateTerrainFrom_single_octave (base : List ℝ) :
    generateTerrainFrom base 1 = base.map goRound := by
  unfold generateTerrainFrom
  rw [octaveList_one, weightSum_one]
  simp only [List.map_cons, List.map_nil, List.sum_cons, List.sum_nil, add_zero, div_one]
  apply List.ext_getElem
  · simp
  · intro n h1 h2
    simp only [List.getElem_map, List.getElem_range]
    have hn : n < base.length := by simpa using h2
    rw [if_pos hn, List.getD_eq_getElem base 0 hn]

/-- C6: with width 10 and a single octave there is no blending, and the
generated profile is exactly the base random sequence rounded entrywise
to the nearest integer. -/
theorem single_octave_profile_is_rounded_base (g : ℕ → ℕ) :
    generateTerrain 10 1 g = (baseSeq 10 g).map goRound := by
  unfold generateTerrain
  exact generateTerrainFrom_single_octave (baseSeq 10 g)

/-! ## C9: terrain generation is deterministic given the base sequence -/

/-- C9: randomness enters terrain generation only through the base
("naive") sequence of step 1 — two runs over random streams that
produce the same base sequence produce identical terrain profiles. -/
theorem terrain_deterministic_in_base (w it : ℕ) (g1 g2 : ℕ → ℕ)
    (h : baseSeq w g1 = baseSeq w g2) :
    generateTerrain w it g1 = generateTerrain w it g2 := by
  unfold generateTerrain
  rw [h]

theorem terrain_deterministic_in_base_witness :
    generateTerrain 3 2 randZero = generateTerrain 3 2 randZero :=
  terrain_deterministic_in_base 3 2 randZero randZero rfl

/-! ## Constant terrain from the all-zero random stream -/

theorem baseSeq_randZero (w : ℕ) : baseSeq w randZero = List.replicate w (5 : ℝ) := by
  unfold baseSeq randZero
  apply List.eq_replicate_iff.mpr
  refine ⟨by simp, ?_⟩
  intro b hb
  rw [List.mem_map] at hb
  obtain ⟨i, -, rfl⟩ := hb
  norm_num

theorem goRound_five : goRound (5 : ℝ) = 5 :=
  goRound_eq (by norm_num) (by norm_num) (by norm_num)

theorem generateTerrain_randZero (w it : ℕ) (hit : 1 ≤ it) :
    generateTerrain w it randZero = List.replicate w 5 := by
  unfold generateTerrain
  rw [baseSeq_randZero, generateTerrainFrom_replicate w 5 it hit, goRound_five]

/-! ## C10: the reset transition reads the old terrain for ballPosY -/

/-- A pre-reset state whose terrain (height 9 everywhere) differs from
any freshly generated terrain of the all-zero stream (height 5). -/
def mPre : Model :=
  { terrain := List.replicate 100 9
    tankPos := 1, targetPos := 75, ballPosX := 1, ballPosY := 9
    angle := 45, power := 20, simulating := false, hit := false, timePassed := 0 }

/-- C10: the reset transition draws `ballPosX` as a fresh random column
in `[1, 5]` and takes `ballPosY` from the PRE-reset terrain at an
independently drawn random column in `[1, 5]`; consequently the
projectile's position after a miss-triggered restart need not coincide
with the new tank's position on the newly generated terrain (concrete
instance: old terrain of height 9 everywhere, new terrain of height 5 —
the ball sits at the tank's column but at height 9 ≠ 5). -/
theorem reset_ball_position_from_old_terrain :
    (∀ (m : Model) (g : ℕ → ℕ) (d1 d2 d3 d4 : ℕ),
      (resetGame m g d1 d2 d3 d4).ballPosY = idx m.terrain ((d4 % 5 + 1 : ℕ) : ℤ) ∧
      (resetGame m g d1 d2 d3 d4).ballPosX = ((d3 % 5 + 1 : ℕ) : ℤ) ∧
      1 ≤ (resetGame m g d1 d2 d3 d4).ballPosX ∧
      (resetGame m g d1 d2 d3 d4).ballPosX ≤ 5 ∧
      (1 : ℤ) ≤ ((d4 % 5 + 1 : ℕ) : ℤ) ∧ ((d4 % 5 + 1 : ℕ) : ℤ) ≤ 5) ∧
    ((resetGame mPre randZero 0 0 0 0).ballPosX = (resetGame mPre randZero 0 0 0 0).tankPos ∧
      (resetGame mPre randZero 0 0 0 0).ballPosY ≠
        idx (resetGame mPre randZero 0 0 0 0).terrain
          (resetGame mPre randZero 0 0 0 0).tankPos) := by
  constructor
  · intro m g d1 d2 d3 d4
    have h3 : d3 % 5 < 5 := Nat.mod_lt _ (by norm_num)
    have h4 : d4 % 5 < 5 := Nat.mod_lt _ (by norm_num)
    refine ⟨rfl, rfl, ?_, ?_, ?_, ?_⟩
    · show (1 : ℤ) ≤ ((d3 % 5 + 1 : ℕ) : ℤ)
      push_cast
      omega
    · show ((d3 % 5 + 1 : ℕ) : ℤ) ≤ 5
      push_cast
      omega
    · push_cast
      omega
    · push_cast
      omega
  · constructor
    · rfl
    · show idx mPre.terrain ((0 % 5 + 1 : ℕ) : ℤ) ≠
        idx (generateTerrain 100 6 randZero) ((0 % 5 + 1 : ℕ) : ℤ)
      rw [generateTerrain_randZero 100 6 (by norm_num)]
      rw [show idx mPre.terrain ((0 % 5 + 1 : ℕ) : ℤ) = 9 by decide]
      rw [idx_replicate (by norm_num) (by norm_num)]
      decide

/-! ## C1: a concrete playthrough that hits the target

With the all-zero random stream the terrain is flat at height 5, the
tank sits at column 1 and the target at column 75.  Pressing `w` seven
times raises the power to 27; firing at the default 45° then hits the
target on tick 38.  The per-tick states of the flight are `trState k`. -/

/-- The in-flight state after `k` accepted ticks of the run fired from
the flat-5 terrain with power 27 and angle 45. -/
noncomputable def trState (k : ℕ) (px py : ℤ) : Model :=
  { terrain := List.replicate 100 5
    tankPos := 1, targetPos := 75, ballPosX := px, ballPosY := py
    angle := 45, power := 27, simulating := true, hit := false
    timePassed := (k : ℝ) / 10 }

theorem sqrt2_gt : (1.414213 : ℝ) < Real.sqrt 2 := by
  nlinarith [Real.sq_sqrt (show (0:ℝ) ≤ 2 by norm_num), Real.sqrt_nonneg 2]

theorem sqrt2_lt : Real.sqrt 2 < (1.414214 : ℝ) := by
  nlinarith [Real.sq_sqrt (show (0:ℝ) ≤ 2 by norm_num), Real.sqrt_nonneg 2]

theorem cos_45deg : Real.cos ((45:ℝ) * Real.pi / 180) = Real.sqrt 2 / 2 := by
  rw [show (45:ℝ) * Real.pi / 180 = Real.pi / 4 by ring]
  exact Real.cos_pi_div_four

theorem sin_45deg : Real.sin ((45:ℝ) * Real.pi / 180) = Real.sqrt 2 / 2 := by
  rw [show (45:ℝ) * Real.pi / 180 = Real.pi / 4 by ring]
  exact Real.sin_pi_div_four

theorem trState_newX (k : ℕ) (px py : ℤ) :
    simNewX (trState k px py) =
      1 + 27 * (Real.sqrt 2 / 2) * (((k:ℝ) + 1) / 10) := by
  simp only [simNewX, simT, trState]
  rw [cos_45deg]
  push_cast
  ring

theorem trState_newY (k : ℕ) (px py : ℤ) :
    simNewY (trState k px py) =
      5 + 27 * (Real.sqrt 2 / 2) * (((k:ℝ) + 1) / 10) -
        0.5 * 9.81 * (((k:ℝ) + 1) / 10) * (((k:ℝ) + 1) / 10) := by
  simp only [simNewY, simT, trState, gravity]
  rw [sin_45deg, show idx (List.replicate 100 5) 1 = 5 by decide]
  push_cast
  ring

theorem trState_len (k : ℕ) (px py : ℤ) :
    ((trState k px py).terrain.length : ℤ) = 100 := by
  simp [trState]

/-- Ticks 1..36 of the flight: the projectile stays in bounds, above
the ground, and left of the target's hit band, so the flight continues. -/
theorem tick_cont (k : ℕ) (px py : ℤ) (hk : k ≤ 35) :
    simulate (trState k px py) =
      (trState (k+1) (goRound (simNewX (trState k px py)))
        (goRound (simNewY (trState k px py))), Cmd.tick) := by
  have hs2l := sqrt2_gt
  have hs2u := sqrt2_lt
  have hs2n := Real.sqrt_nonneg 2
  have hkr : (k:ℝ) ≤ 35 := by exact_mod_cast hk
  have hkr0 : (0:ℝ) ≤ (k:ℝ) := Nat.cast_nonneg k
  have hX := trState_newX k px py
  have hY := trState_newY k px py
  have hX0 : 0 ≤ simNewX (trState k px py) := by
    rw [hX]
    positivity
  have hXlt : simNewX (trState k px py) < 71.5 := by
    rw [hX]
    nlinarith [mul_le_mul (show (k:ℝ) + 1 ≤ 36 by linarith) (le_of_lt hs2u) hs2n
      (by norm_num : (0:ℝ) ≤ 36)]
  have hground : (5:ℝ) < simNewY (trState k px py) := by
    rw [hY]
    have hfac : 0.04905 * ((k:ℝ) + 1) < 1.35 * Real.sqrt 2 := by nlinarith
    nlinarith [mul_pos (show (0:ℝ) < (k:ℝ) + 1 by linarith)
      (show (0:ℝ) < 1.35 * Real.sqrt 2 - 0.04905 * ((k:ℝ) + 1) by linarith)]
  have htr0 : 0 ≤ goTrunc (simNewX (trState k px py)) := goTrunc_nonneg hX0
  have htrlt : goTrunc (simNewX (trState k px py)) < 100 :=
    goTrunc_lt hX0 (by push_cast; linarith)
  have hterr : idx (trState k px py).terrain (goTrunc (simNewX (trState k px py))) = 5 := by
    show idx (List.replicate 100 5) _ = 5
    exact idx_replicate htr0 (by exact_mod_cast htrlt)
  have hmiss : ¬ missCond (trState k px py) := by
    rintro (h1 | h2 | h3)
    · rw [trState_len] at h1
      omega
    · omega
    · rw [hterr] at h3
      push_cast at h3
      linarith
  have hhit : ¬ hitCond (trState k px py) := by
    rintro ⟨habs, -, -⟩
    have hrle : goRound (simNewX (trState k px py)) ≤ 71 :=
      goRound_le hX0 (by push_cast; linarith)
    rw [show (trState k px py).targetPos = 75 from rfl] at habs
    omega
  rw [simulate_cont _ rfl hmiss hhit]
  refine Prod.ext ?_ rfl
  simp only [trState, simT]
  congr 1
  push_cast
  ring

/-- Tick 37: the projectile enters the target's horizontal band
(rounded column 72) but is still too high (rounded height 8 > 7), so
the flight continues. -/
theorem tick_37 (px py : ℤ) :
    simulate (trState 36 px py) =
      (trState 37 (goRound (simNewX (trState 36 px py)))
        (goRound (simNewY (trState 36 px py))), Cmd.tick) := by
  have hs2l := sqrt2_gt
  have hs2u := sqrt2_lt
  have hX := trState_newX 36 px py
  have hY := trState_newY 36 px py
  have hX0 : 0 ≤ simNewX (trState 36 px py) := by
    rw [hX]
    positivity
  have hXlt : simNewX (trState 36 px py) < 72 := by
    rw [hX]
    push_cast
    nlinarith
  have hYhigh : (7.5:ℝ) ≤ simNewY (trState 36 px py) := by
    rw [hY]
    push_cast
    nlinarith
  have htr0 : 0 ≤ goTrunc (simNewX (trState 36 px py)) := goTrunc_nonneg hX0
  have htrlt : goTrunc (simNewX (trState 36 px py)) < 100 :=
    goTrunc_lt hX0 (by push_cast; linarith)
  have hterr : idx (trState 36 px py).terrain (goTrunc (simNewX (trState 36 px py))) = 5 := by
    show idx (List.replicate 100 5) _ = 5
    exact idx_replicate htr0 (by exact_mod_cast htrlt)
  have hmiss : ¬ missCond (trState 36 px py) := by
    rintro (h1 | h2 | h3)
    · rw [trState_len] at h1
      omega
    · omega
    · rw [hterr] at h3
      push_cast at h3
      linarith
  have hhit : ¬ hitCond (trState 36 px py) := by
    rintro ⟨-, -, hup⟩
    have hge : (8:ℤ) ≤ goRound (simNewY (trState 36 px py)) :=
      le_goRound (by linarith) (by push_cast; linarith)
    have htp : idx (trState 36 px py).terrain (trState 36 px py).targetPos = 5 := by
      show idx (List.replicate 100 5) 75 = 5
      decide
    rw [htp] at hup
    omega
  rw [simulate_cont _ rfl hmiss hhit]
  refine Prod.ext ?_ rfl
  simp only [trState, simT]
  congr 1
  norm_num

/-- The terminal state of the flight: tick 38 hits the target. -/
noncomputable def mHit : Model :=
  { terrain := List.replicate 100 5
    tankPos := 1, targetPos := 75, ballPosX := 74, ballPosY := 7
    angle := 45, power := 27, simulating := false, hit := true
    timePassed := 3.8 }

/-- Tick 38: the rounded position is column 74, height 7 — inside the
target band (|75 − 74| ≤ 3, 7 within ±2 of terrain height 5) and above
ground — so the hit branch fires. -/
theorem tick_38 (px py : ℤ) :
    simulate (trState 37 px py) = (mHit, Cmd.none) := by
  have hs2l := sqrt2_gt
  have hs2u := sqrt2_lt
  have hX := trState_newX 37 px py
  have hY := trState_newY 37 px py
  have hX0 : 0 ≤ simNewX (trState 37 px py) := by
    rw [hX]
    positivity
  have hXlo : (73.5:ℝ) ≤ simNewX (trState 37 px py) := by
    rw [hX]
    push_cast
    nlinarith
  have hXhi : simNewX (trState 37 px py) < 74.5 := by
    rw [hX]
    push_cast
    nlinarith
  have hYlo : (6.5:ℝ) ≤ simNewY (trState 37 px py) := by
    rw [hY]
    push_cast
    nlinarith
  have hYhi : simNewY (trState 37 px py) < 7.5 := by
    rw [hY]
    push_cast
    nlinarith
  have hroundX : goRound (simNewX (trState 37 px py)) = 74 :=
    goRound_eq hX0 (by push_cast; linarith) (by push_cast; linarith)
  have hroundY : goRound (simNewY (trState 37 px py)) = 7 :=
    goRound_eq (by linarith) (by push_cast; linarith) (by push_cast; linarith)
  have htr0 : 0 ≤ goTrunc (simNewX (trState 37 px py)) := goTrunc_nonneg hX0
  have htrlt : goTrunc (simNewX (trState 37 px py)) < 100 :=
    goTrunc_lt hX0 (by push_cast; linarith)
  have hterr : idx (trState 37 px py).terrain (goTrunc (simNewX (trState 37 px py))) = 5 := by
    show idx (List.replicate 100 5) _ = 5
    exact idx_replicate htr0 (by exact_mod_cast htrlt)
  have hmiss : ¬ missCond (trState 37 px py) := by
    rintro (h1 | h2 | h3)
    · rw [trState_len] at h1
      omega
    · omega
    · rw [hterr] at h3
      push_cast at h3
      linarith
  have hhit : hitCond (trState 37 px py) := by
    have htp : idx (trState 37 px py).terrain (trState 37 px py).targetPos = 5 := by
      show idx (List.replicate 100 5) 75 = 5
      decide
    refine ⟨?_, ?_, ?_⟩
    · rw [hroundX]
      show ((75:ℤ) - 74).natAbs ≤ 3
      decide
    · rw [hroundY, htp]
      decide
    · rw [hroundY, htp]
      decide
  rw [simulate_hit _ rfl hmiss hhit]
  refine Prod.ext ?_ rfl
  rw [hroundX, hroundY]
  simp only [trState, simT, mHit]
  congr 1
  norm_num

/-- The initial state of the all-zero random stream: flat terrain at
height 5, tank at column 1, target at column 75. -/
theorem initialModel_randZero : initialModel randZero 0 0 =
    { terrain := List.replicate 100 5
      tankPos := 1, targetPos := 75, ballPosX := 1, ballPosY := 5
      angle := 45, power := 20, simulating := false, hit := false
      timePassed := 0 } := by
  unfold initialModel
  rw [generateTerrain_randZero 100 6 (by norm_num)]
  rw [show ((0 % 5 + 1 : ℕ) : ℤ) = 1 by norm_num]
  rw [show ((0 % 5 + 75 : ℕ) : ℤ) = 75 by norm_num]
  rw [idx_replicate (by norm_num) (by norm_num)]

/-- The aiming phase of the playthrough: seven `w` presses then fire. -/
theorem reach_fire_state : Reachable (trState 0 1 5) := by
  have h0 : Reachable (initialModel randZero 0 0) := Reachable.init randZero 0 0
  rw [initialModel_randZero] at h0
  have h1 := Reachable.step _ (Msg.key "w") h0
  rw [update_key_w _ rfl] at h1
  have h2 := Reachable.step _ (Msg.key "w") h1
  rw [update_key_w _ rfl] at h2
  have h3 := Reachable.step _ (Msg.key "w") h2
  rw [update_key_w _ rfl] at h3
  have h4 := Reachable.step _ (Msg.key "w") h3
  rw [update_key_w _ rfl] at h4
  have h5 := Reachable.step _ (Msg.key "w") h4
  rw [update_key_w _ rfl] at h5
  have h6 := Reachable.step _ (Msg.key "w") h5
  rw [update_key_w _ rfl] at h6
  have h7 := Reachable.step _ (Msg.key "w") h6
  rw [update_key_w _ rfl] at h7
  have h8 := Reachable.step _ (Msg.key "enter") h7
  rw [update_key_enter _ rfl] at h8
  convert h8 using 1
  simp only [trState]
  congr 1
  · norm_num
  · norm_num

/-- After the fire command, every `k ≤ 37` ticks keep the projectile in
flight (for some rendered ball position). -/
theorem reach_trState (k : ℕ) (hk : k ≤ 37) :
    ∃ px py, Reachable (trState k px py) := by
  induction k with
  | zero => exact ⟨1, 5, reach_fire_state⟩
  | succ n ih =>
    obtain ⟨px, py, hr⟩ := ih (by omega)
    by_cases hn : n ≤ 35
    · have hstep := Reachable.step _ Msg.tick hr
      rw [show update (trState n px py) Msg.tick = simulate (trState n px py) from rfl,
        tick_cont n px py hn] at hstep
      exact ⟨_, _, hstep⟩
    · have hn36 : n = 36 := by omega
      subst hn36
      have hstep := Reachable.step _ Msg.tick hr
      rw [show update (trState 36 px py) Msg.tick = simulate (trState 36 px py) from rfl,
        tick_37 px py] at hstep
      exact ⟨_, _, hstep⟩

theorem reach_mHit : Reachable mHit := by
  obtain ⟨px, py, hr⟩ := reach_trState 37 (le_refl 37)
  have hstep := Reachable.step _ Msg.tick hr
  rw [show update (trState 37 px py) Msg.tick = simulate (trState 37 px py) from rfl,
    tick_38 px py] at hstep
  exact hstep

/-- The state reached by pressing fire (`enter`) again after the hit:
both `simulating` and `hit` are true. -/
noncomputable def mBoth : Model :=
  { terrain := List.replicate 100 5
    tankPos := 1, targetPos := 75, ballPosX := 74, ballPosY := 7
    angle := 45, power := 27, simulating := true, hit := true
    timePassed := 0 }

/-- C1 counterexample: the state `mBoth`, with `simulating = true` and
`hit = true` simultaneously, is reachable from an initial state by key
commands and tick events alone: with the all-zero random stream, press
`w` seven times, fire, let 38 ticks run (the 38th hits the target), and
press `enter` once more — the fire handler only checks `simulating`,
not `hit`. -/
theorem simulating_and_hit_both_true_reachable_cex :
    Reachable mBoth ∧ mBoth.simulating = true ∧ mBoth.hit = true := by
  refine ⟨?_, rfl, rfl⟩
  have hstep := Reachable.step _ (Msg.key "enter") reach_mHit
  rw [update_key_enter _ rfl] at hstep
  exact hstep

/-! ## C1 (amended): the invariant holds except for fire-after-hit -/

theorem update_key_cases (m : Model) (s : String) (hsim : m.simulating = false) :
    (update m (Msg.key s)).1 = m ∨
    (update m (Msg.key s)).1 = { m with angle := m.angle - 5 } ∨
    (update m (Msg.key s)).1 = { m with angle := m.angle + 5 } ∨
    (update m (Msg.key s)).1 = { m with power := m.power + 1 } ∨
    (update m (Msg.key s)).1 = { m with power := m.power - 1 } ∨
    (s = "enter" ∧
      (update m (Msg.key s)).1 = { m with simulating := true, timePassed := 0 }) := by
  by_cases hq : s = "q"
  · subst hq
    rw [update_key_q]
    left
    rfl
  · simp only [update]
    rw [if_neg hq, if_pos hsim]
    split
    · right; left; rfl
    · right; right; left; rfl
    · right; right; right; left; rfl
    · right; right; right; right; left; rfl
    · right; right; right; right; right; exact ⟨rfl, rfl⟩
    · left; rfl

/-- C1 (amended): along every trace of key commands, tick events and
reset events in which the fire command (`enter`) is never accepted
while `hit` is already true, no reachable state has `simulating = true`
and `hit = true` simultaneously.  (The unrestricted claim is false:
see the counterexample — firing again after a hit yields such a state.) -/
theorem no_simulating_and_hit_without_refire (m : Model)
    (h : ReachableNoFireAfterHit m) :
    ¬ (m.simulating = true ∧ m.hit = true) := by
  induction h with
  | init g d1 d2 =>
    rintro ⟨hs, -⟩
    exact absurd (show false = true from hs) (by decide)
  | step m msg hmsg hr ih =>
    rintro ⟨hs, hh⟩
    cases msg with
    | tick =>
      have hupd : update m Msg.tick = simulate m := rfl
      rw [hupd] at hs hh
      by_cases hsim : m.simulating = true
      · by_cases hm : missCond m
        · rw [simulate_miss m hsim hm] at hs
          exact absurd (show false = true from hs) (by decide)
        · by_cases hhit : hitCond m
          · rw [simulate_hit m hsim hm hhit] at hs
            exact absurd (show false = true from hs) (by decide)
          · rw [simulate_cont m hsim hm hhit] at hh
            exact ih ⟨hsim, hh⟩
      · have hf : m.simulating = false := by
          revert hsim
          cases m.simulating <;> simp
        rw [simulate_not_simulating m hf] at hs hh
        exact ih ⟨hs, hh⟩
    | reset g d1 d2 d3 d4 =>
      have hupd : (update m (Msg.reset g d1 d2 d3 d4)).1 = resetGame m g d1 d2 d3 d4 := rfl
      rw [hupd] at hs
      exact absurd (show false = true from hs) (by decide)
    | key s =>
      by_cases hsim : m.simulating = true
      · by_cases hq : s = "q"
        · subst hq
          rw [update_key_q] at hs hh
          exact ih ⟨hs, hh⟩
        · rw [update_key_simulating m s hsim hq] at hs hh
          exact ih ⟨hs, hh⟩
      · have hf : m.simulating = false := by
          revert hsim
          cases m.simulating <;> simp
        rcases update_key_cases m s hf with hc | hc | hc | hc | hc | ⟨hent, hc⟩
        · rw [hc] at hs
          exact hsim hs
        · rw [hc] at hs
          exact hsim (show m.simulating = true from hs)
        · rw [hc] at hs
          exact hsim (show m.simulating = true from hs)
        · rw [hc] at hs
          exact hsim (show m.simulating = true from hs)
        · rw [hc] at hs
          exact hsim (show m.simulating = true from hs)
        · rw [hc] at hh
          have h0 : m.hit = false := hmsg (by rw [hent])
          have h1 : m.hit = true := show m.hit = true from hh
          rw [h0] at h1
          cases h1

theorem no_simulating_and_hit_without_refire_witness :
    ¬ ((initialModel randZero 0 0).simulating = true ∧
       (initialModel randZero 0 0).hit = true) :=
  no_simulating_and_hit_without_refire (initialModel randZero 0 0)
    (ReachableNoFireAfterHit.init randZero 0 0)

end TTanks
